import Mathlib

/-!
# Verification of the Bollinger-Bands trading bot core

Shallow embedding, in Lean 4, of the parts of the `bollingerbans2` repository
that the specification's claims are about:

* `bb_signal_utils.validate_and_calculate_trade_params` (final sizing/validation),
* `signal_processor.process_signals_and_initiate_trade` (quantity guards),
* `trade_manager.adjust_quantity_to_step_size` / `adjust_price_to_tick_size`,
* `BB_buy.analizar_señales_compra` (BUY signal evaluation),
* `pending_order_manager._handle_emergency_close` / `_process_filled_order`,
* `position_manager.manage_active_position` (closure accounting),
* `persistent_state.PersistentState` (accumulated-loss ops and save/load).

Python `Decimal` values are modelled as rationals (`ℚ`) in the operational
models; for the serialization round trip they are modelled structurally, as
sign / digit-list / exponent triples mirroring `Decimal.as_tuple()`.
`None`-able values are `Option`s; dictionaries are association lists.
-/

namespace BB

/-! ## Decimal/Filter utilities (`trade_manager.py`)

`adjust_price_to_tick_size` (trade_manager.py lines 88-100): divides by the
tick, truncates toward zero with `ROUND_DOWN`, multiplies back, and quantizes
to the tick's number of decimals (the quantize step is exact, hence omitted:
`floor(p/tick)*tick` is always representable at the tick's precision).
If the tick is missing or non-positive the price is returned unchanged.
Python's `to_integral_value(rounding=ROUND_DOWN)` truncates toward zero,
which is `Rat.floor` for non-negative quotients and `ceil` for negative ones;
we model it with an explicit truncation. -/

/-- Truncation toward zero, as Python's `ROUND_DOWN`. -/
def truncQ (q : ℚ) : ℤ := if q < 0 then ⌈q⌉ else ⌊q⌋

/-- `TradeManager.adjust_price_to_tick_size` (trade_manager.py 88-100). -/
def adjustPriceToTickSize (tick p : ℚ) : ℚ :=
  if tick ≤ 0 then p else (truncQ (p / tick) : ℚ) * tick

/-- `TradeManager.adjust_quantity_to_step_size` (trade_manager.py 102-125).
`none` models Python `None` (rejection). The `stepSize < 0` guard, the
pre-rounding `quantity < minQty` guard, the `stepSize == 0` integer-rounding
branch and the post-rounding `minQty` guard follow the source line by line. -/
def adjustQuantityToStepSize (stepSize minQty q : ℚ) : Option ℚ :=
  if stepSize < 0 then none
  else if q < minQty then none
  else
    let adjusted : ℚ :=
      if stepSize = 0 then (truncQ q : ℚ)
      else (truncQ (q / stepSize) : ℚ) * stepSize
    if adjusted < minQty then none else some adjusted

/-! ## Final sizing/validation (`bb_signal_utils.py` 86-205)

`validate_and_calculate_trade_params`. Inputs that the Python function reads
from its environment are passed explicitly: `tick` is
`trade_manager.get_symbol_info_data(symbol)['tickSize']` (default `1e-8` when
the symbol info is unavailable), `rrMult` is the risk/reward multiplier.
The returned dictionary is modelled by `TradeParams`. -/

structure TradeParams where
  entry : ℚ
  sl : ℚ
  tp : ℚ
  signalType : String
  deriving Repr, DecidableEq

/-- `validate_and_calculate_trade_params` (bb_signal_utils.py 86-205).
Follows the source checks in order: quantity validity, SL-vs-entry
directional sanity (matched against the strings `"COMPRA"` / `"VENTA"`
exactly as the source does), risk-per-unit vs tick, TP computation with
tick rounding, TP-vs-entry directional sanity. -/
def validateAndCalculateTradeParams
    (signalTypeStr : String) (entryPriceTarget stopLossPriceRef : ℚ)
    (calculatedTradeQuantity : Option ℚ) (tick : ℚ) (rrMult : ℚ) :
    Option TradeParams :=
  match calculatedTradeQuantity with
  | none => none
  | some qty =>
    if qty ≤ 0 then none
    else
      let actualSlPrice := stopLossPriceRef
      let slIsValidVsEntry : Bool :=
        if signalTypeStr = "COMPRA" then decide (actualSlPrice < entryPriceTarget)
        else if signalTypeStr = "VENTA" then decide (actualSlPrice > entryPriceTarget)
        else false
      if !slIsValidVsEntry then none
      else
        let riskPerUnit := |entryPriceTarget - actualSlPrice|
        if riskPerUnit < tick then none
        else
          if signalTypeStr = "COMPRA" then
            let tpCalc := entryPriceTarget + rrMult * riskPerUnit
            let adjustedTp := adjustPriceToTickSize tick tpCalc
            if adjustedTp > entryPriceTarget then
              some ⟨entryPriceTarget, actualSlPrice, adjustedTp, signalTypeStr⟩
            else none
          else if signalTypeStr = "VENTA" then
            let tpCalc := entryPriceTarget - rrMult * riskPerUnit
            let adjustedTp := adjustPriceToTickSize tick tpCalc
            if adjustedTp < entryPriceTarget then
              some ⟨entryPriceTarget, actualSlPrice, adjustedTp, signalTypeStr⟩
            else none
          else none

/-! ## Quantity guards of the signal processor (signal_processor.py 202-220)

After computing a candidate quantity, `process_signals_and_initiate_trade`
runs `adjust_quantity_to_step_size` and then three guards in order: the
adjusted quantity must be truthy and positive, at least `minQty`, and its
notional value `quantity * target_entry_price` at least `minNotional`;
otherwise the signal is skipped (`continue`) and no trade is opened.
`some f` models acceptance with final quantity `f`; `none` models a skip. -/
def acceptQuantity (stepSize minQty minNotional entryPriceTarget q : ℚ) :
    Option ℚ :=
  match adjustQuantityToStepSize stepSize minQty q with
  | none => none
  | some f =>
    if f ≤ 0 then none
    else if f < minQty then none
    else if f * entryPriceTarget < minNotional then none
    else some f

/-! ## Association-list dictionaries

Python `dict`s (with unique keys, insertion-ordered) are modelled as
association lists. `setA` replaces in place or appends; `eraseA` removes the
key; `lookupA` finds it. -/

def lookupA {β : Type} : List (String × β) → String → Option β
  | [], _ => none
  | (k, v) :: tl, key => if k = key then some v else lookupA tl key

def setA {β : Type} : List (String × β) → String → β → List (String × β)
  | [], key, v => [(key, v)]
  | (k, w) :: tl, key, v =>
    if k = key then (k, v) :: tl else (k, w) :: setA tl key v

def eraseA {β : Type} : List (String × β) → String → List (String × β)
  | [], _ => []
  | (k, w) :: tl, key =>
    if k = key then eraseA tl key else (k, w) :: eraseA tl key

/-! ## Persistent state, operational view (`persistent_state.py`)

`PersistentState.accumulated_losses` maps slot keys to `Decimal` values.
`get_accumulated_loss` defensively re-parses `Decimal(str(value))`, catching
`InvalidOperation`; `StoredVal.unparsable` models a stored value whose
string form does not parse back (the `except` branch, persistent_state.py
158-160). Keys are "invalid" in the source when not a nonempty string; the
nonempty-string check is modelled by comparison with `""`. -/

inductive StoredVal : Type where
  | dec (q : ℚ)
  | unparsable
  deriving DecidableEq

/-- Payload of `active_trades[key]`; only the fields the modelled code paths
read.  `pending` is a `PENDING_DYNAMIC_LIMIT` dict, `openPos` a
`POSITION_OPEN` dict (note: the dict built by `_process_filled_order`,
pending_order_manager.py 190-199, carries no `accumulated_loss_at_entry`
key, hence that field is an `Option`), `alertMarker` a
`{key}_NO_SL_ALERT_SENT` sentinel dict. -/
structure PendingRec where
  symbol : String
  signalType : String
  positionSideHedgeMode : String
  targetEntryPrice : Option ℚ
  targetSlPrice : Option ℚ
  targetTpPrice : Option ℚ
  quantity : ℚ
  deriving DecidableEq

structure OpenPosRec where
  slOrderResponse : Option ℕ
  tpOrderResponse : Option ℕ
  accLossAtEntry : Option ℚ
  deriving DecidableEq

inductive SlotPayload : Type where
  | pending (t : PendingRec)
  | openPos (p : OpenPosRec)
  | alertMarker
  deriving DecidableEq

structure BotState where
  activeTrades : List (String × SlotPayload)
  accumulatedLosses : List (String × StoredVal)
  deriving DecidableEq

/-- `PersistentState.get_accumulated_loss` (persistent_state.py 144-161). -/
def getAccumulatedLoss (st : BotState) (key : String) : ℚ :=
  if key = "" then 0
  else
    match lookupA st.accumulatedLosses key with
    | none => 0
    | some (.dec q) => q
    | some .unparsable => 0

/-- `PersistentState.update_accumulated_loss` (persistent_state.py 163-181):
a negative amount is replaced by its absolute value, then added to the
current accumulated loss. -/
def updateAccumulatedLoss (st : BotState) (key : String) (amount : ℚ) :
    BotState :=
  if key = "" then st
  else
    let amt := if amount < 0 then |amount| else amount
    let newTotal := getAccumulatedLoss st key + amt
    { st with accumulatedLosses := setA st.accumulatedLosses key (.dec newTotal) }

/-- `PersistentState.reset_accumulated_loss` (persistent_state.py 183-200). -/
def resetAccumulatedLoss (st : BotState) (key : String) : BotState :=
  if key = "" then st
  else
    match lookupA st.accumulatedLosses key with
    | some v =>
      if v ≠ .dec 0 then
        { st with accumulatedLosses := setA st.accumulatedLosses key (.dec 0) }
      else st
    | none =>
      { st with accumulatedLosses := setA st.accumulatedLosses key (.dec 0) }

/-- `PersistentState.set_active_trade` (persistent_state.py 102-110). -/
def setActiveTrade (st : BotState) (key : String) (payload : SlotPayload) :
    BotState :=
  if key = "" then st
  else { st with activeTrades := setA st.activeTrades key payload }

/-- `PersistentState.clear_active_trade` (persistent_state.py 112-122). -/
def clearActiveTrade (st : BotState) (key : String) : BotState :=
  if key = "" then st
  else { st with activeTrades := eraseA st.activeTrades key }

/-- `PersistentState.get_active_trade` (persistent_state.py 125-128). -/
def getActiveTrade (st : BotState) (key : String) : Option SlotPayload :=
  if key = "" then none else lookupA st.activeTrades key

/-! ## Pending-Order Manager (`pending_order_manager.py`)

External effects are supplied as oracle inputs: `avgPrice` is the parsed
`avgPrice` of the filled entry order (`none` = absent or unparsable),
`marketPrice` is `trade_manager.get_current_market_price()` (`none` =
unavailable), `slPlaceResult` / `tpPlaceResult` are the order ids the
exchange would return for the SL / TP placement calls (`none` = response
without a truthy `orderId`), `closeOrderResult` likewise for the emergency
market close. -/

structure MarketOrderReq where
  side : String
  quantity : ℚ
  reduceOnly : Bool
  positionSide : String
  deriving DecidableEq

/-- `_handle_emergency_close` (pending_order_manager.py 32-64): places a
reduce-only market order in the opposite direction for the stored quantity,
then destroys the slot regardless of the close order's outcome (the outcome
only changes the logged reason). Returns the placed request and the new
state. -/
def handleEmergencyClose (t : PendingRec) (key : String)
    (closeOrderResult : Option ℕ) (st : BotState) :
    MarketOrderReq × BotState :=
  let marketCloseSide := if t.signalType = "BUY" then "SELL" else "BUY"
  let req : MarketOrderReq :=
    { side := marketCloseSide, quantity := t.quantity,
      reduceOnly := true, positionSide := t.positionSideHedgeMode }
  let _ := closeOrderResult
  (req, clearActiveTrade st key)

structure FillInputs where
  avgPrice : Option ℚ
  marketPrice : Option ℚ
  slPlaceResult : Option ℕ
  tpPlaceResult : Option ℕ
  closeOrderResult : Option ℕ
  deriving DecidableEq

/-- Actual entry price computation of `_process_filled_order`
(pending_order_manager.py 82-106): the exchange's positive `avgPrice`, else
fallback to the stored `target_entry_price` (0 when unparsable). -/
def actualEntryPriceOf (fi : FillInputs) (t : PendingRec) : ℚ :=
  match fi.avgPrice with
  | some p => if 0 < p then p else (t.targetEntryPrice.getD 0)
  | none => t.targetEntryPrice.getD 0

/-- SL placement of `_process_filled_order` (pending_order_manager.py
124-160): validity vs entry, safety vs the current market price, then the
stop-market placement; `some id` exactly when every step succeeded. -/
def slPlacementOutcome (fi : FillInputs) (t : PendingRec)
    (actualEntryPrice : ℚ) : Option ℕ :=
  match t.targetSlPrice with
  | none => none
  | some sl =>
    if (t.signalType = "BUY" ∧ sl < actualEntryPrice) ∨
       (t.signalType = "SELL" ∧ sl > actualEntryPrice) then
      match fi.marketPrice with
      | none => none
      | some m =>
        if (t.signalType = "BUY" ∧ m > sl) ∨
           (t.signalType = "SELL" ∧ m < sl) then
          fi.slPlaceResult
        else none
    else none

/-- TP placement of `_process_filled_order` (pending_order_manager.py
168-187); best-effort, failure is not an error. -/
def tpPlacementOutcome (fi : FillInputs) (t : PendingRec)
    (actualEntryPrice : ℚ) : Option ℕ :=
  match t.targetTpPrice with
  | none => none
  | some tp =>
    if (t.signalType = "BUY" ∧ tp > actualEntryPrice) ∨
       (t.signalType = "SELL" ∧ tp < actualEntryPrice) then
      fi.tpPlaceResult
    else none

/-- `_process_filled_order` (pending_order_manager.py 67-202): on invalid
entry price or any SL-placement failure, emergency close (slot destroyed);
otherwise transition the slot to `POSITION_OPEN` recording the SL/TP
responses. -/
def processFilledOrder (fi : FillInputs) (t : PendingRec) (key : String)
    (st : BotState) : BotState :=
  let actualEntryPrice := actualEntryPriceOf fi t
  if actualEntryPrice ≤ 0 then
    (handleEmergencyClose t key fi.closeOrderResult st).2
  else
    match slPlacementOutcome fi t actualEntryPrice with
    | none => (handleEmergencyClose t key fi.closeOrderResult st).2
    | some slId =>
      setActiveTrade st key (.openPos
        { slOrderResponse := some slId,
          tpOrderResponse := tpPlacementOutcome fi t actualEntryPrice,
          accLossAtEntry := none })

/-! ## Position Manager (`position_manager.py` 31-301)

Oracle inputs: `checkStatus` is `trade_manager.check_order_status` (by order
id; `none` = call failed), `slPnl` / `tpPnl` the realized P&L that
`fetch_trade_closure_details` would compute for the SL / TP closure (0 when
the details are unavailable, position_manager.py 92/149), `positionAmount`
the position size reported by `get_active_position` (`none` = no position
dict). Values that feed only notifications (close price, closed quantity,
balance) do not touch persisted state and are not modelled. -/

structure PmInputs where
  martingale : Bool
  checkStatus : ℕ → Option String
  slPnl : ℚ
  tpPnl : ℚ
  positionAmount : Option ℚ
  deriving Inhabited

def alertKeyOf (key : String) : String := key ++ "_NO_SL_ALERT_SENT"

/-- Common closure epilogue (position_manager.py 118-126 / 186-194): destroy
the slot, then clear the one-shot no-SL alert sentinel if present. -/
def closureEpilogue (key : String) (st : BotState) : BotState :=
  let st1 := clearActiveTrade st key
  if (getActiveTrade st1 (alertKeyOf key)).isSome then
    clearActiveTrade st1 (alertKeyOf key)
  else st1

/-- Step 4 of `manage_active_position` (position_manager.py 268-299):
"position without active SL" detection with a one-shot alert sentinel. -/
def pmNoSlAlertStep (i : PmInputs) (key : String) (st : BotState) :
    BotState :=
  let finalSlId : Option ℕ :=
    match getActiveTrade st key with
    | some (.openPos p) => p.slOrderResponse
    | _ => none
  let slActive : Bool :=
    match finalSlId with
    | some theId =>
      match i.checkStatus theId with
      | some s => decide (s = "NEW" ∨ s = "PARTIALLY_FILLED")
      | none => false
    | none => false
  if !slActive then
    if (getActiveTrade st (alertKeyOf key)).isNone then
      setActiveTrade st (alertKeyOf key) .alertMarker
    else st
  else
    if (getActiveTrade st (alertKeyOf key)).isSome then
      clearActiveTrade st (alertKeyOf key)
    else st

/-- Step 3 of `manage_active_position` (position_manager.py 200-225):
position-existence check; an unknown closure destroys the slot without
touching accumulated losses. -/
def pmPositionCheckStep (i : PmInputs) (key : String) (st : BotState) :
    BotState :=
  let gone :=
    match i.positionAmount with
    | none => true
    | some amt => amt = 0
  if gone then
    if (getActiveTrade st key).isSome then closureEpilogue key st else st
  else
    pmNoSlAlertStep i key st

/-- Step 2 of `manage_active_position` (position_manager.py 135-198): TP
check. A `FILLED` TP resets the accumulated loss when martingale is on,
P&L ≥ 0, and the trade's recorded `accumulated_loss_at_entry` (default
`'0'` when the key is absent, 0 when unparsable) is positive. -/
def pmTpStep (i : PmInputs) (p : OpenPosRec) (key : String) (st : BotState) :
    BotState :=
  match p.tpOrderResponse with
  | some tpId =>
    match i.checkStatus tpId with
    | some s =>
      if s = "FILLED" then
        let st1 :=
          if i.martingale ∧ 0 ≤ i.tpPnl ∧ 0 < p.accLossAtEntry.getD 0 then
            resetAccumulatedLoss st key
          else st
        closureEpilogue key st1
      else pmPositionCheckStep i key st
    | none => pmPositionCheckStep i key st
  | none => pmPositionCheckStep i key st

/-- `manage_active_position` (position_manager.py 31-301), given the
`POSITION_OPEN` payload `p` passed by the orchestrator. Step 1: SL check. A
`FILLED` SL adds `|P&L|` to the accumulated loss when martingale is on and
P&L < 0; a terminal non-FILLED SL status is recorded as "no SL" (the stored
`sl_order_response` is cleared) before continuing. -/
def manageActivePosition (i : PmInputs) (p : OpenPosRec) (key : String)
    (st : BotState) : BotState :=
  match p.slOrderResponse with
  | some slId =>
    match i.checkStatus slId with
    | some s =>
      if s = "FILLED" then
        let st1 :=
          if i.martingale ∧ i.slPnl < 0 then
            updateAccumulatedLoss st key |i.slPnl|
          else st
        closureEpilogue key st1
      else if ¬(s = "NEW" ∨ s = "PARTIALLY_FILLED" ∨ s = "PENDING_CANCEL") then
        let p2 : OpenPosRec := { p with slOrderResponse := none }
        pmTpStep i p2 key (setActiveTrade st key (.openPos p2))
      else pmTpStep i p key st
    | none => pmTpStep i p key st
  | none => pmTpStep i p key st

/-! ## Main loop tick dispatch (`main_bot_loop.py` 330-489)

One iteration of `run_bot`'s per-tick work, from the global-flag check
onward, with the control channel (the Telegram manager) present. When
`is_bot_globally_enabled()` is false the source sleeps and `continue`s
(lines 333-339), performing no per-symbol work at all; otherwise each
symbol's two slots are dispatched by status and new-signal processing runs
(lines 469-489). -/

inductive TickAction : Type where
  | dispatchPOM (key : String)
  | dispatchPM (key : String)
  | evalSignals (symbol : String)
  deriving DecidableEq

/-- Per-symbol dispatch (main_bot_loop.py 469-489). -/
def symbolTickActions (st : BotState) (symbol : String) : List TickAction :=
  let dispatchSlot (key : String) : List TickAction :=
    match getActiveTrade st key with
    | some (.pending _) => [.dispatchPOM key]
    | some (.openPos _) => [.dispatchPM key]
    | _ => []
  dispatchSlot (symbol ++ "_LONG") ++ dispatchSlot (symbol ++ "_SHORT")
    ++ [.evalSignals symbol]

/-- One tick of the main loop from the flag check onward
(main_bot_loop.py 330-489). -/
def runTick (flagOn : Bool) (st : BotState) (symbols : List String) :
    List TickAction :=
  if !flagOn then []
  else symbols.flatMap (symbolTickActions st)

/-! ## BUY signal evaluation (`BB_buy.py` 16-176)

`analizar_señales_compra`. The websocket data provider (not part of `src/`)
is modelled from the spec: per §3/§4.1 of the spec the MDC serves candles
identified by `open_time_utc`, so the trigger dataframe's index
(`last_trigger_candle.name`, BB_buy.py 47) is the candle's UTC open time.
Band values whose lookup or `Decimal` conversion fails (the caught
`KeyError`/`InvalidOperation`/`TypeError`, BB_buy.py 57-78) are `none`.
The display-only verbose branches do not affect the returned value and are
not modelled. -/

structure TriggerCandle where
  close : ℚ
  openTimeUtc : ℤ
  deriving DecidableEq

structure MainBands where
  bblOrig : Option ℚ
  bbmOrig : Option ℚ
  bblNew : Option ℚ
  deriving DecidableEq

structure BuySignal where
  entryPriceTarget : ℚ
  stopLossPriceRef : ℚ
  timestampUtc : ℤ
  signalType : String
  deriving DecidableEq

/-- `analizar_señales_compra` (BB_buy.py 16-176). -/
def analizarSenalesCompra (dfTrigger : Option (List TriggerCandle))
    (bandsMain : Option MainBands) (bbmSlRef : Option ℚ) :
    Option BuySignal :=
  match dfTrigger with
  | none => none
  | some df =>
    match df.getLast? with
    | none => none
    | some lastCandle =>
      match bandsMain with
      | none => none
      | some bands =>
        match bands.bblOrig, bands.bbmOrig, bands.bblNew with
        | some bblOrigMain, some bbmOrigMain, some bblNewMain =>
          match bbmSlRef with
          | none => none
          | some bbmSl =>
            if bblOrigMain > bbmSl ∧ lastCandle.close < bbmOrigMain then
              some { entryPriceTarget := bblNewMain,
                     stopLossPriceRef := bbmSl,
                     timestampUtc := lastCandle.openTimeUtc,
                     signalType := "COMPRA" }
            else none
        | _, _, _ => none

/-! ## Persistent state serialization (`persistent_state.py` 14-100)

`save_state` writes `str(Decimal)` / `datetime.isoformat()` text;
`load_state` keeps `active_trades` values as the raw parsed JSON and
re-parses `accumulated_losses` values with `Decimal(str(value))`. To settle
the round-trip claim, Python `Decimal` is modelled structurally as
`Decimal.as_tuple()` — a sign, a digit list (no leading zero except the
single digit 0) and an exponent — with `decToStr` implementing the
to-scientific-string algorithm of `Decimal.__str__` (finite values) and
`strToDec` the numeric-string acceptance of the `Decimal` constructor
(finite, no leading/trailing whitespace). Strings are modelled as `List
Char`. -/

structure Dec where
  neg : Bool
  digits : List ℕ
  exp : ℤ
  deriving DecidableEq, Repr

/-- The invariant `Decimal.as_tuple()` guarantees: a nonempty digit tuple of
base-10 digits with no leading zero except for the single digit 0. -/
def ValidDec (d : Dec) : Prop :=
  d.digits ≠ [] ∧ (∀ x ∈ d.digits, x < 10) ∧
    (d.digits.head? = some 0 → d.digits = [0])

def digitChar : ℕ → Char
  | 0 => '0'
  | 1 => '1'
  | 2 => '2'
  | 3 => '3'
  | 4 => '4'
  | 5 => '5'
  | 6 => '6'
  | 7 => '7'
  | 8 => '8'
  | _ => '9'

def digitVal (c : Char) : ℕ := c.toNat - 48

def isDigitChar (c : Char) : Bool :=
  decide ('0' ≤ c) && decide (c ≤ '9')

/-- Decimal rendering of a natural number, most significant digit first. -/
def renderNat (k : ℕ) : List Char :=
  if k = 0 then ['0'] else (Nat.digits 10 k).reverse.map digitChar

/-- The `%+d`-formatted exponent of `Decimal.__str__`. -/
def expChars (adjusted : ℤ) : List Char :=
  if adjusted < 0 then '-' :: renderNat adjusted.natAbs
  else '+' :: renderNat adjusted.toNat

/-- Unsigned part of `str(Decimal)` (the to-scientific-string algorithm of
`decimal.Decimal.__str__` for finite values): fixed-point notation when
`exp ≤ 0` and the adjusted exponent is ≥ -6, scientific notation with a
one-digit integer part otherwise. -/
def decBody (d : Dec) : List Char :=
  if d.exp ≤ 0 ∧ -6 ≤ d.exp + d.digits.length - 1 then
    if d.exp = 0 then d.digits.map digitChar
    else if 0 < (d.digits.length : ℤ) + d.exp then
      (d.digits.map digitChar).take (d.digits.length - (-d.exp).toNat) ++
        '.' :: (d.digits.map digitChar).drop
          (d.digits.length - (-d.exp).toNat)
    else
      '0' :: '.' ::
        (List.replicate ((-d.exp).toNat - d.digits.length) '0' ++
          d.digits.map digitChar)
  else
    (match d.digits.map digitChar with
     | [] => []
     | c :: tl => if tl = [] then [c] else c :: '.' :: tl)
    ++ 'E' :: expChars (d.exp + d.digits.length - 1)

/-- `str(Decimal)`: the sign, then the unsigned body. -/
def decToStr (d : Dec) : List Char :=
  if d.neg then '-' :: decBody d else decBody d

def digitsValC (ds : List Char) : ℕ :=
  ds.foldl (fun a c => 10 * a + digitVal c) 0

/-- Coefficient normalization of the `Decimal` constructor: leading zeros
are removed; an all-zero coefficient becomes the single digit 0. -/
def stripDigits (l : List ℕ) : List ℕ :=
  let stripped := l.dropWhile (· = 0)
  if stripped = [] then [0] else stripped

/-- Exponent-part acceptance of the `Decimal` constructor: after the
integer and fractional digit groups, the remainder must be empty or
`[eE][+-]?digits`. -/
def finishDec (neg : Bool) (intPart fracPart rest : List Char) :
    Option Dec :=
  let mk : ℤ → Dec := fun e =>
    { neg := neg,
      digits := stripDigits ((intPart ++ fracPart).map digitVal),
      exp := e - fracPart.length }
  match rest with
  | [] => some (mk 0)
  | c :: rest2 =>
    if c = 'E' ∨ c = 'e' then
      match rest2 with
      | [] => none
      | c2 :: rest3 =>
        if c2 = '-' then
          if rest3 ≠ [] ∧ rest3.all isDigitChar then
            some (mk (-(digitsValC rest3 : ℤ)))
          else none
        else if c2 = '+' then
          if rest3 ≠ [] ∧ rest3.all isDigitChar then
            some (mk (digitsValC rest3))
          else none
        else
          if rest2.all isDigitChar then some (mk (digitsValC rest2))
          else none
    else none

/-- Unsigned numeric-string acceptance of the `Decimal` constructor:
`digits [. digits?] [exp]` or `. digits [exp]`; at least one digit must be
present. -/
def parseUnsigned (neg : Bool) (cs : List Char) : Option Dec :=
  let intPart := cs.takeWhile isDigitChar
  let rest1 := cs.dropWhile isDigitChar
  match rest1 with
  | [] => if intPart = [] then none else finishDec neg intPart [] []
  | c :: rest2 =>
    if c = '.' then
      let fracPart := rest2.takeWhile isDigitChar
      let rest3 := rest2.dropWhile isDigitChar
      if intPart = [] ∧ fracPart = [] then none
      else finishDec neg intPart fracPart rest3
    else if intPart = [] then none
    else finishDec neg intPart [] rest1

/-- `Decimal(string)` for finite numeric strings (no whitespace): optional
sign, then an unsigned numeric string; `none` models `InvalidOperation`. -/
def strToDec (cs : List Char) : Option Dec :=
  match cs with
  | [] => none
  | c :: rest =>
    if c = '-' then parseUnsigned true rest
    else if c = '+' then parseUnsigned false rest
    else parseUnsigned false cs

/-- A UTC timestamp (`datetime` / `pd.Timestamp` with UTC tzinfo). Only its
`isoformat()` rendering is consumed by `save_state`; `load_state` never
parses it back (active-trade values stay raw JSON strings). -/
structure Tstamp where
  year : ℕ
  month : ℕ
  day : ℕ
  hour : ℕ
  minute : ℕ
  second : ℕ
  microsecond : ℕ
  deriving DecidableEq, Repr

def padNum (width : ℕ) (k : ℕ) : List Char :=
  let r := renderNat k
  List.replicate (width - r.length) '0' ++ r

/-- `datetime.isoformat()` for a UTC-aware timestamp:
`YYYY-MM-DDTHH:MM:SS[.ffffff]+00:00`. -/
def isoformatChars (t : Tstamp) : List Char :=
  padNum 4 t.year ++ '-' :: padNum 2 t.month ++ '-' :: padNum 2 t.day ++
    'T' :: padNum 2 t.hour ++ ':' :: padNum 2 t.minute ++
    ':' :: padNum 2 t.second ++
    (if t.microsecond = 0 then [] else '.' :: padNum 6 t.microsecond) ++
    ('+' :: '0' :: '0' :: ':' :: '0' :: '0' :: [])

/- In-memory values of the persistent state, per the round-trip claim's
scope: decimals and UTC timestamps at the leaves (plus the strings that a
previous load produced), in arbitrarily nested lists and dicts. -/
mutual
inductive MVal : Type where
  | dec (d : Dec)
  | ts (t : Tstamp)
  | str (s : List Char)
  | arr (items : MList)
  | obj (items : MObj)
inductive MList : Type where
  | nil
  | cons (hd : MVal) (tl : MList)
inductive MObj : Type where
  | nil
  | cons (key : String) (hd : MVal) (tl : MObj)
end

/- JSON values as written by `json.dump` after
`convert_to_json_serializable` (strings, arrays, objects). -/
mutual
inductive JVal : Type where
  | str (s : List Char)
  | arr (items : JList)
  | obj (items : JObj)
inductive JList : Type where
  | nil
  | cons (hd : JVal) (tl : JList)
inductive JObj : Type where
  | nil
  | cons (key : String) (hd : JVal) (tl : JObj)
end

/- `convert_to_json_serializable` (persistent_state.py 14-27): recursively
turns `Decimal` into `str(Decimal)` and timestamps into `isoformat()`;
everything else passes through. -/
mutual
def convertVal : MVal → JVal
  | .dec d => .str (decToStr d)
  | .ts t => .str (isoformatChars t)
  | .str s => .str s
  | .arr l => .arr (convertList l)
  | .obj o => .obj (convertObj o)
def convertList : MList → JList
  | .nil => .nil
  | .cons hd tl => .cons (convertVal hd) (convertList tl)
def convertObj : MObj → JObj
  | .nil => .nil
  | .cons k hd tl => .cons k (convertVal hd) (convertObj tl)
end

/- `json.load`'s value for a stored JSON tree, as Python objects (the
identity embedding: strings stay strings, containers stay containers). -/
mutual
def jvalToMVal : JVal → MVal
  | .str s => .str s
  | .arr l => .arr (jlistToMList l)
  | .obj o => .obj (jobjToMObj o)
def jlistToMList : JList → MList
  | .nil => .nil
  | .cons hd tl => .cons (jvalToMVal hd) (jlistToMList tl)
def jobjToMObj : JObj → MObj
  | .nil => .nil
  | .cons k hd tl => .cons k (jvalToMVal hd) (jobjToMObj tl)
end

/-- In-memory `PersistentState` content for the round-trip claim:
`active_trades` (slot key → payload) and `accumulated_losses`
(slot key → `Decimal`). -/
structure PState where
  activeTrades : List (String × MVal)
  accumulatedLosses : List (String × Dec)

/-- The serialized state file, as the JSON tree `json.dump` writes
(`json.dump` is deterministic and key-order preserving, so equality of the
trees is byte-for-byte equality of the files modulo key ordering). -/
structure JFile where
  activeTrades : List (String × JVal)
  accumulatedLosses : List (String × JVal)

/-- `PersistentState.save_state` (persistent_state.py 78-100). (The
`value is not None` filter on trades is vacuous here: `MVal` has no
`None`.) -/
def saveState (st : PState) : JFile :=
  { activeTrades := st.activeTrades.map fun kv => (kv.1, convertVal kv.2),
    accumulatedLosses :=
      st.accumulatedLosses.map fun kv => (kv.1, JVal.str (decToStr kv.2)) }

/-- The `Decimal(str(value))` re-parse of every accumulated-loss entry
(persistent_state.py 55-59); any failure raises, which the surrounding
`except` turns into a fully empty state. -/
def parsedLosses : List (String × JVal) → Option (List (String × Dec))
  | [] => some []
  | (k, .str s) :: tl =>
    match strToDec s, parsedLosses tl with
    | some d, some r => some ((k, d) :: r)
    | _, _ => none
  | _ :: _ => none

/-- `PersistentState.load_state` (persistent_state.py 36-76) from an
existing file: `active_trades` is kept as raw parsed JSON; the
`accumulated_losses` values are re-parsed to `Decimal`, and any error
yields an empty in-memory state. -/
def loadState (f : JFile) : PState :=
  match parsedLosses f.accumulatedLosses with
  | some losses =>
    { activeTrades := f.activeTrades.map fun kv => (kv.1, jvalToMVal kv.2),
      accumulatedLosses := losses }
  | none => { activeTrades := [], accumulatedLosses := [] }

end BB

namespace BB

/-! ### C1 -/

/-- **C1.** The signal processor (signal_processor.py 228-241) calls
`validate_and_calculate_trade_params` with `signal_type_str = "BUY"`, but the
function only recognises `"COMPRA"`/`"VENTA"`; with `"BUY"` the
SL-directional check can never succeed and every candidate is rejected:
the call returns `none` for ALL inputs. In particular it rejects the spec's
own seed fixture (entry 100.8, sl 100.0, qty 1.25, tick 0.01, K 10), while
the identical call with `"COMPRA"` returns the validated trade the claim
describes (sl = 100.0, tp = 100.8 + 10·0.8 = 108.8). -/
theorem c1_buy_string_rejected :
    (∀ (entry sl : ℚ) (qty : Option ℚ) (tick rrMult : ℚ),
       validateAndCalculateTradeParams "BUY" entry sl qty tick rrMult = none)
    ∧ validateAndCalculateTradeParams "COMPRA" (504/5) 100 (some (5/4)) (1/100) 10
        = some ⟨504/5, 100, 544/5, "COMPRA"⟩ := by
  constructor
  · intro entry sl qty tick rrMult
    cases qty with
    | none => rfl
    | some q =>
      simp only [validateAndCalculateTradeParams,
        show ("BUY" = "COMPRA") = False from by decide,
        show ("BUY" = "VENTA") = False from by decide,
        if_false, Bool.not_false, if_true, ite_self]
  · have habs : |(504:ℚ)/5 - 100| = 4/5 := by
      rw [show (504:ℚ)/5 - 100 = 4/5 from by norm_num]
      exact abs_of_nonneg (by norm_num)
    simp only [validateAndCalculateTradeParams, adjustPriceToTickSize, truncQ, habs,
      show ("COMPRA" = "COMPRA") = True from by decide,
      show ("COMPRA" = "VENTA") = False from by decide, if_true, if_false]
    norm_num

end BB

namespace BB

/-! ### C9 -/

/-- **C9.** Assuming a positive lot step (the exchange's `LOT_SIZE` filter),
every quantity the signal processor accepts after step-size adjustment and
its guards is a non-negative integer multiple of `stepSize`, is at least
`minQty`, and has notional value `f * entry ≥ minNotional`; violating
candidates are skipped (`acceptQuantity = none` is exactly the
contrapositive). -/
theorem c9_accepted_quantity_filters
    (stepSize minQty minNotional entry q f : ℚ)
    (hstep : 0 < stepSize)
    (h : acceptQuantity stepSize minQty minNotional entry q = some f) :
    (∃ k : ℤ, 0 ≤ k ∧ f = (k : ℚ) * stepSize)
    ∧ minQty ≤ f ∧ minNotional ≤ f * entry := by
  unfold acceptQuantity at h
  unfold adjustQuantityToStepSize at h
  rw [if_neg (not_lt.mpr hstep.le)] at h
  by_cases hq : q < minQty
  · rw [if_pos hq] at h; exact absurd h (by simp)
  · rw [if_neg hq, if_neg (ne_of_gt hstep)] at h
    set a : ℚ := (truncQ (q / stepSize) : ℚ) * stepSize with ha
    by_cases hmin : a < minQty
    · rw [if_pos hmin] at h; exact absurd h (by simp)
    · rw [if_neg hmin] at h
      simp only at h
      by_cases hpos : a ≤ 0
      · rw [if_pos hpos] at h; exact absurd h (by simp)
      · rw [if_neg hpos] at h
        by_cases hmin2 : a < minQty
        · exact absurd hmin2 hmin
        · rw [if_neg hmin2] at h
          by_cases hnot : a * entry < minNotional
          · rw [if_pos hnot] at h; exact absurd h (by simp)
          · rw [if_neg hnot] at h
            have hfa : f = a := by
              simpa using h.symm
            subst hfa
            refine ⟨⟨truncQ (q / stepSize), ?_, rfl⟩, not_lt.mp hmin, not_lt.mp hnot⟩
            have hfpos : 0 < (truncQ (q / stepSize) : ℚ) * stepSize := lt_of_not_le hpos
            have : (0:ℚ) < (truncQ (q / stepSize) : ℚ) := by
              have := div_pos hfpos hstep
              rwa [mul_div_assoc, div_self (ne_of_gt hstep), mul_one] at this
            exact_mod_cast this.le

/-- Witness for C9: at step 1, minQty 1, minNotional 5, entry 10, candidate
3/2, the processor accepts quantity 1 and the three filter conditions hold. -/
theorem c9_witness :
    (∃ k : ℤ, 0 ≤ k ∧ (1:ℚ) = (k : ℚ) * 1) ∧ (1:ℚ) ≤ 1 ∧ (5:ℚ) ≤ 1 * 10 :=
  c9_accepted_quantity_filters 1 1 5 10 (3/2) 1 (by norm_num)
    (by norm_num [acceptQuantity, adjustQuantityToStepSize, truncQ])

end BB

namespace BB

/-! ### Association-list and state lemmas (shared) -/

theorem lookupA_setA_self {β : Type} (l : List (String × β)) (key : String)
    (v : β) : lookupA (setA l key v) key = some v := by
  induction l with
  | nil => simp [setA, lookupA]
  | cons hd tl ih =>
    obtain ⟨k, w⟩ := hd
    by_cases h : k = key
    · simp [setA, lookupA, h]
    · simp [setA, lookupA, h, ih]

theorem lookupA_setA_ne {β : Type} (l : List (String × β)) (key k' : String)
    (v : β) (h : key ≠ k') : lookupA (setA l key v) k' = lookupA l k' := by
  induction l with
  | nil => simp [setA, lookupA, h]
  | cons hd tl ih =>
    obtain ⟨k, w⟩ := hd
    by_cases hk : k = key
    · subst hk
      simp [setA, lookupA, h, ih]
    · simp [setA, lookupA, hk, ih]

theorem lookupA_eraseA_self {β : Type} (l : List (String × β)) (key : String) :
    lookupA (eraseA l key) key = none := by
  induction l with
  | nil => simp [eraseA, lookupA]
  | cons hd tl ih =>
    obtain ⟨k, w⟩ := hd
    by_cases h : k = key
    · simp [eraseA, lookupA, h, ih]
    · simp [eraseA, lookupA, h, ih]

theorem lookupA_eraseA_ne {β : Type} (l : List (String × β)) (key k' : String)
    (h : key ≠ k') : lookupA (eraseA l key) k' = lookupA l k' := by
  induction l with
  | nil => simp [eraseA, lookupA]
  | cons hd tl ih =>
    obtain ⟨k, w⟩ := hd
    by_cases hk : k = key
    · subst hk
      simp [eraseA, lookupA, h, ih]
    · simp [eraseA, lookupA, hk, ih]

theorem getAcc_setActiveTrade (st : BotState) (key k : String)
    (payload : SlotPayload) :
    getAccumulatedLoss (setActiveTrade st key payload) k
      = getAccumulatedLoss st k := by
  unfold setActiveTrade getAccumulatedLoss
  by_cases h : key = "" <;> simp [h]

theorem getAcc_clearActiveTrade (st : BotState) (key k : String) :
    getAccumulatedLoss (clearActiveTrade st key) k
      = getAccumulatedLoss st k := by
  unfold clearActiveTrade getAccumulatedLoss
  by_cases h : key = "" <;> simp [h]

theorem getAcc_closureEpilogue (st : BotState) (key k : String) :
    getAccumulatedLoss (closureEpilogue key st) k
      = getAccumulatedLoss st k := by
  unfold closureEpilogue
  by_cases h : (getActiveTrade (clearActiveTrade st key) (alertKeyOf key)).isSome
  · simp [h, getAcc_clearActiveTrade]
  · simp [h, getAcc_clearActiveTrade]

theorem key_ne_alertKey (key : String) : key ≠ alertKeyOf key := by
  intro h
  have hlen := congrArg String.length h
  rw [alertKeyOf, String.length_append,
    show ("_NO_SL_ALERT_SENT" : String).length = 17 from rfl] at hlen
  omega

theorem getActive_clear_self (st : BotState) (key : String) (h : key ≠ "") :
    getActiveTrade (clearActiveTrade st key) key = none := by
  unfold clearActiveTrade getActiveTrade
  simp [h, lookupA_eraseA_self]

theorem getActive_clear_ne (st : BotState) (key k : String) (h : key ≠ k) :
    getActiveTrade (clearActiveTrade st key) k = getActiveTrade st k := by
  unfold clearActiveTrade getActiveTrade
  by_cases hkey : key = "" <;> by_cases hk : k = "" <;>
    simp [hkey, hk, lookupA_eraseA_ne _ _ _ h]

theorem getActive_set_self (st : BotState) (key : String)
    (payload : SlotPayload) (h : key ≠ "") :
    getActiveTrade (setActiveTrade st key payload) key = some payload := by
  unfold setActiveTrade getActiveTrade
  simp [h, lookupA_setA_self]

theorem getActive_closureEpilogue_self (st : BotState) (key : String)
    (h : key ≠ "") :
    getActiveTrade (closureEpilogue key st) key = none := by
  unfold closureEpilogue
  by_cases halert :
      (getActiveTrade (clearActiveTrade st key) (alertKeyOf key)).isSome
  · simp only [halert, if_true]
    rw [getActive_clear_ne _ _ _ fun hh => key_ne_alertKey key hh.symm]
    exact getActive_clear_self st key h
  · simp only [halert, if_false]
    exact getActive_clear_self st key h

theorem getAcc_update_self (st : BotState) (key : String) (a : ℚ)
    (h : key ≠ "") :
    getAccumulatedLoss (updateAccumulatedLoss st key a) key
      = getAccumulatedLoss st key + |a| := by
  unfold updateAccumulatedLoss
  simp only [h, if_false]
  have hamt : (if a < 0 then |a| else a) = |a| := by
    by_cases ha : a < 0
    · simp [ha]
    · simp [ha, abs_of_nonneg (not_lt.mp ha)]
  unfold getAccumulatedLoss
  simp [h, lookupA_setA_self, hamt]

theorem getAcc_update_other (st : BotState) (key k : String) (a : ℚ)
    (h : key ≠ k) :
    getAccumulatedLoss (updateAccumulatedLoss st key a) k
      = getAccumulatedLoss st k := by
  unfold updateAccumulatedLoss
  by_cases hkey : key = ""
  · simp [hkey]
  · simp only [hkey, if_false]
    unfold getAccumulatedLoss
    by_cases hk : k = ""
    · simp [hk]
    · simp [hk, lookupA_setA_ne _ _ _ _ h]

theorem getAcc_reset_self (st : BotState) (key : String) (h : key ≠ "") :
    getAccumulatedLoss (resetAccumulatedLoss st key) key = 0 := by
  unfold resetAccumulatedLoss
  simp only [h, if_false]
  cases hl : lookupA st.accumulatedLosses key with
  | none =>
    unfold getAccumulatedLoss
    simp [h, lookupA_setA_self]
  | some v =>
    dsimp only
    by_cases hv : v = .dec 0
    · rw [if_neg (fun hcon => hcon hv)]
      unfold getAccumulatedLoss
      simp [h, hl, hv]
    · rw [if_pos hv]
      unfold getAccumulatedLoss
      simp [h, lookupA_setA_self]

theorem getAcc_reset_other (st : BotState) (key k : String) (h : key ≠ k) :
    getAccumulatedLoss (resetAccumulatedLoss st key) k
      = getAccumulatedLoss st k := by
  unfold resetAccumulatedLoss
  by_cases hkey : key = ""
  · simp [hkey]
  · simp only [hkey, if_false]
    cases hl : lookupA st.accumulatedLosses key with
    | none =>
      unfold getAccumulatedLoss
      by_cases hk : k = ""
      · simp [hk]
      · simp [hk, lookupA_setA_ne _ _ _ _ h]
    | some v =>
      by_cases hv : v = .dec 0
      · simp [hv]
      · simp only [ne_eq, hv, not_false_eq_true, if_true]
        unfold getAccumulatedLoss
        by_cases hk : k = ""
        · simp [hk]
        · simp [hk, lookupA_setA_ne _ _ _ _ h]

end BB

namespace BB

/-! ### C10 -/

/-- **C10.** The persistent state keeps accumulated losses non-negative:
`get_accumulated_loss` returns 0 for an invalid (empty) key, a missing key,
or an unparsable stored value; `update_accumulated_loss` adds exactly the
absolute value of its argument (so it never decreases a counter, even for a
negative argument); `reset_accumulated_loss` makes the stored value exactly
0; and both mutators preserve non-negativity of every stored counter. -/
theorem c10_accumulated_loss_invariants (st : BotState) (key k : String)
    (a : ℚ) :
    getAccumulatedLoss st "" = 0
    ∧ (lookupA st.accumulatedLosses key = none → getAccumulatedLoss st key = 0)
    ∧ (lookupA st.accumulatedLosses key = some .unparsable →
        getAccumulatedLoss st key = 0)
    ∧ (key ≠ "" →
        getAccumulatedLoss (updateAccumulatedLoss st key a) key
          = getAccumulatedLoss st key + |a|)
    ∧ (key ≠ "" → getAccumulatedLoss (resetAccumulatedLoss st key) key = 0)
    ∧ ((∀ k', 0 ≤ getAccumulatedLoss st k') →
        0 ≤ getAccumulatedLoss (updateAccumulatedLoss st key a) k
        ∧ 0 ≤ getAccumulatedLoss (resetAccumulatedLoss st key) k) := by
  refine ⟨by simp [getAccumulatedLoss], ?_, ?_, ?_, ?_, ?_⟩
  · intro h
    unfold getAccumulatedLoss
    by_cases hk : key = "" <;> simp [hk, h]
  · intro h
    unfold getAccumulatedLoss
    by_cases hk : key = "" <;> simp [hk, h]
  · exact getAcc_update_self st key a
  · exact getAcc_reset_self st key
  · intro hnn
    constructor
    · by_cases hk : key = k
      · subst hk
        by_cases hkey : key = ""
        · subst hkey
          simp [updateAccumulatedLoss]
          exact hnn ""
        · rw [getAcc_update_self st key a hkey]
          exact add_nonneg (hnn key) (abs_nonneg a)
      · rw [getAcc_update_other st key k a hk]
        exact hnn k
    · by_cases hk : key = k
      · subst hk
        by_cases hkey : key = ""
        · subst hkey
          simp [resetAccumulatedLoss]
          exact hnn ""
        · rw [getAcc_reset_self st key hkey]
      · rw [getAcc_reset_other st key k hk]
        exact hnn k

/-- Witness for C10 at a concrete state: key "BTCUSDT_LONG", one stored
loss of 3/2, update amount -2 (negative on purpose). -/
theorem c10_witness :
    getAccumulatedLoss
      (updateAccumulatedLoss
        (BotState.mk [] [("BTCUSDT_LONG", .dec (3/2))]) "BTCUSDT_LONG" (-2))
      "BTCUSDT_LONG"
      = getAccumulatedLoss (BotState.mk [] [("BTCUSDT_LONG", .dec (3/2))])
          "BTCUSDT_LONG" + |(-2 : ℚ)|
    ∧ getAccumulatedLoss
        (resetAccumulatedLoss
          (BotState.mk [] [("BTCUSDT_LONG", .dec (3/2))]) "BTCUSDT_LONG")
        "BTCUSDT_LONG" = 0 := by
  have h := c10_accumulated_loss_invariants
    (BotState.mk [] [("BTCUSDT_LONG", .dec (3/2))]) "BTCUSDT_LONG"
    "BTCUSDT_LONG" (-2)
  exact ⟨h.2.2.2.1 (by decide), h.2.2.2.2.1 (by decide)⟩

end BB

namespace BB

/-! ### C4 -/

/-- **C4.** When an SL order reports `FILLED`, martingale is enabled, and
the realized P&L is negative, `manage_active_position` adds exactly `|P&L|`
to the accumulated loss for the slot key and destroys the slot. -/
theorem c4_sl_closure_accumulates_loss
    (i : PmInputs) (p : OpenPosRec) (key : String) (st : BotState)
    (hkey : key ≠ "") (slId : ℕ)
    (hsl : p.slOrderResponse = some slId)
    (hstatus : i.checkStatus slId = some "FILLED")
    (hmart : i.martingale = true) (hpnl : i.slPnl < 0) :
    getAccumulatedLoss (manageActivePosition i p key st) key
      = getAccumulatedLoss st key + |i.slPnl|
    ∧ getActiveTrade (manageActivePosition i p key st) key = none := by
  unfold manageActivePosition
  rw [hsl]
  dsimp only
  rw [hstatus]
  dsimp only
  rw [if_pos rfl, if_pos ⟨by rw [hmart], hpnl⟩]
  constructor
  · rw [getAcc_closureEpilogue, getAcc_update_self st key _ hkey, abs_abs]
  · exact getActive_closureEpilogue_self _ key hkey

/-- Witness for C4: SL order 5 filled with P&L -3/4 under martingale; the
accumulated loss for "BTCUSDT_LONG" grows from 0 by 3/4 and the slot is
destroyed. -/
theorem c4_witness :
    getAccumulatedLoss
      (manageActivePosition
        ⟨true, fun _ => some "FILLED", -(3/4), 0, none⟩
        ⟨some 5, none, none⟩ "BTCUSDT_LONG" (BotState.mk [] []))
      "BTCUSDT_LONG"
      = getAccumulatedLoss (BotState.mk [] []) "BTCUSDT_LONG" + |(-(3/4) : ℚ)|
    ∧ getActiveTrade
        (manageActivePosition
          ⟨true, fun _ => some "FILLED", -(3/4), 0, none⟩
          ⟨some 5, none, none⟩ "BTCUSDT_LONG" (BotState.mk [] []))
        "BTCUSDT_LONG" = none :=
  c4_sl_closure_accumulates_loss
    ⟨true, fun _ => some "FILLED", -(3/4), 0, none⟩
    ⟨some 5, none, none⟩ "BTCUSDT_LONG" (BotState.mk [] [])
    (by decide) 5 rfl rfl rfl (by norm_num)

end BB

namespace BB

/-! ### C5 -/

/-- TP-filled branch of `pmTpStep` (position_manager.py 139-194). -/
theorem pmTpStep_tp_filled
    (i : PmInputs) (p : OpenPosRec) (key : String) (st : BotState)
    (hkey : key ≠ "") (tpId : ℕ)
    (htp : p.tpOrderResponse = some tpId)
    (hstatus : i.checkStatus tpId = some "FILLED")
    (hmart : i.martingale = true) (hpnl : 0 ≤ i.tpPnl) :
    (0 < p.accLossAtEntry.getD 0 →
      getAccumulatedLoss (pmTpStep i p key st) key = 0)
    ∧ (¬ 0 < p.accLossAtEntry.getD 0 →
      getAccumulatedLoss (pmTpStep i p key st) key = getAccumulatedLoss st key)
    ∧ getActiveTrade (pmTpStep i p key st) key = none := by
  unfold pmTpStep
  rw [htp]
  dsimp only
  rw [hstatus]
  dsimp only
  rw [if_pos rfl]
  by_cases hacc : 0 < p.accLossAtEntry.getD 0
  · rw [if_pos ⟨by rw [hmart], hpnl, hacc⟩]
    refine ⟨fun _ => ?_, fun hcon => absurd hacc hcon, ?_⟩
    · rw [getAcc_closureEpilogue, getAcc_reset_self st key hkey]
    · exact getActive_closureEpilogue_self _ key hkey
  · rw [if_neg (fun hcon => hacc hcon.2.2)]
    refine ⟨fun hcon => absurd hcon hacc, fun _ => ?_, ?_⟩
    · rw [getAcc_closureEpilogue]
    · exact getActive_closureEpilogue_self _ key hkey

/-- **C5.** When the SL order has not reported `FILLED` but the TP has,
martingale is enabled and the realized P&L is ≥ 0: if the trade's recorded
`accumulated_loss_at_entry` is strictly positive, the accumulated loss for
the slot key becomes exactly 0; if it is not positive (in particular, zero
or the key absent), the accumulated loss is unchanged; in both cases the
slot is destroyed. -/
theorem c5_tp_closure_resets_loss
    (i : PmInputs) (p : OpenPosRec) (key : String) (st : BotState)
    (hkey : key ≠ "")
    (hslnf : ∀ sId, p.slOrderResponse = some sId →
        i.checkStatus sId ≠ some "FILLED")
    (tpId : ℕ) (htp : p.tpOrderResponse = some tpId)
    (hstatus : i.checkStatus tpId = some "FILLED")
    (hmart : i.martingale = true) (hpnl : 0 ≤ i.tpPnl) :
    (0 < p.accLossAtEntry.getD 0 →
      getAccumulatedLoss (manageActivePosition i p key st) key = 0)
    ∧ (¬ 0 < p.accLossAtEntry.getD 0 →
      getAccumulatedLoss (manageActivePosition i p key st) key
        = getAccumulatedLoss st key)
    ∧ getActiveTrade (manageActivePosition i p key st) key = none := by
  unfold manageActivePosition
  cases hslr : p.slOrderResponse with
  | none =>
    exact pmTpStep_tp_filled i p key st hkey tpId htp hstatus hmart hpnl
  | some sId =>
    dsimp only
    cases hc : i.checkStatus sId with
    | none =>
      exact pmTpStep_tp_filled i p key st hkey tpId htp hstatus hmart hpnl
    | some s =>
      have hs : ¬ s = "FILLED" := by
        intro hcon
        exact hslnf sId hslr (by rw [hc, hcon])
      dsimp only
      rw [if_neg hs]
      by_cases hterm : ¬(s = "NEW" ∨ s = "PARTIALLY_FILLED" ∨ s = "PENDING_CANCEL")
      · rw [if_pos hterm]
        have h2 := pmTpStep_tp_filled i { p with slOrderResponse := none } key
          (setActiveTrade st key (.openPos { p with slOrderResponse := none }))
          hkey tpId htp hstatus hmart hpnl
        refine ⟨h2.1, fun hcon => ?_, h2.2.2⟩
        rw [h2.2.1 hcon, getAcc_setActiveTrade]
      · rw [if_neg hterm]
        exact pmTpStep_tp_filled i p key st hkey tpId htp hstatus hmart hpnl

/-- Witness for C5: TP order 9 filled with P&L 1/2, SL order 5 still NEW,
`accumulated_loss_at_entry` = 3/2 > 0; the accumulated loss for
"BTCUSDT_LONG" (previously 3/2) becomes 0 and the slot is destroyed. -/
theorem c5_witness :
    getAccumulatedLoss
      (manageActivePosition
        ⟨true, fun n => if n = 9 then some "FILLED" else some "NEW",
          0, 1/2, some 1⟩
        ⟨some 5, some 9, some (3/2)⟩ "BTCUSDT_LONG"
        (BotState.mk [] [("BTCUSDT_LONG", .dec (3/2))]))
      "BTCUSDT_LONG" = 0
    ∧ getActiveTrade
        (manageActivePosition
          ⟨true, fun n => if n = 9 then some "FILLED" else some "NEW",
            0, 1/2, some 1⟩
          ⟨some 5, some 9, some (3/2)⟩ "BTCUSDT_LONG"
          (BotState.mk [] [("BTCUSDT_LONG", .dec (3/2))]))
        "BTCUSDT_LONG" = none := by
  have h := c5_tp_closure_resets_loss
    ⟨true, fun n => if n = 9 then some "FILLED" else some "NEW", 0, 1/2, some 1⟩
    ⟨some 5, some 9, some (3/2)⟩ "BTCUSDT_LONG"
    (BotState.mk [] [("BTCUSDT_LONG", .dec (3/2))])
    (by decide)
    (by intro sId hs hcon
        simp only [Option.some.injEq] at hs
        subst hs
        exact absurd hcon (by decide))
    9 rfl (by decide) rfl (by norm_num)
  exact ⟨h.1 (by norm_num), h.2.2⟩

end BB

namespace BB

/-! ### C8 -/

/-- **C8.** Every emergency close of a pending slot places a reduce-only
market order in the direction opposite to the trade's signal side for the
full stored quantity, and — whatever the close order's outcome — removes
the slot from `active_trades` while leaving `accumulated_losses` completely
unchanged. -/
theorem c8_emergency_close_semantics
    (t : PendingRec) (key : String) (closeResp : Option ℕ) (st : BotState)
    (hkey : key ≠ "") :
    (handleEmergencyClose t key closeResp st).1.reduceOnly = true
    ∧ (handleEmergencyClose t key closeResp st).1.quantity = t.quantity
    ∧ (handleEmergencyClose t key closeResp st).1.positionSide
        = t.positionSideHedgeMode
    ∧ (t.signalType = "BUY" →
        (handleEmergencyClose t key closeResp st).1.side = "SELL")
    ∧ (t.signalType = "SELL" →
        (handleEmergencyClose t key closeResp st).1.side = "BUY")
    ∧ getActiveTrade (handleEmergencyClose t key closeResp st).2 key = none
    ∧ (handleEmergencyClose t key closeResp st).2.accumulatedLosses
        = st.accumulatedLosses := by
  refine ⟨rfl, rfl, rfl, ?_, ?_, ?_, ?_⟩
  · intro h
    simp [handleEmergencyClose, h]
  · intro h
    have : ¬ t.signalType = "BUY" := by rw [h]; decide
    simp [handleEmergencyClose, this]
  · exact getActive_clear_self st key hkey
  · unfold handleEmergencyClose clearActiveTrade
    simp [hkey]

/-- Witness for C8 at a concrete BUY pending trade whose close order fails
(`closeResp = none`). -/
theorem c8_witness :
    (handleEmergencyClose
        ⟨"BTCUSDT", "BUY", "LONG", some 100, some 95, some 150, 2⟩
        "BTCUSDT_LONG" none
        (BotState.mk
          [("BTCUSDT_LONG",
            .pending ⟨"BTCUSDT", "BUY", "LONG", some 100, some 95, some 150, 2⟩)]
          [("ETHUSDT_SHORT", .dec 7)])).1.reduceOnly = true
    ∧ (handleEmergencyClose
        ⟨"BTCUSDT", "BUY", "LONG", some 100, some 95, some 150, 2⟩
        "BTCUSDT_LONG" none
        (BotState.mk
          [("BTCUSDT_LONG",
            .pending ⟨"BTCUSDT", "BUY", "LONG", some 100, some 95, some 150, 2⟩)]
          [("ETHUSDT_SHORT", .dec 7)])).1.side = "SELL"
    ∧ getActiveTrade
        (handleEmergencyClose
          ⟨"BTCUSDT", "BUY", "LONG", some 100, some 95, some 150, 2⟩
          "BTCUSDT_LONG" none
          (BotState.mk
            [("BTCUSDT_LONG",
              .pending ⟨"BTCUSDT", "BUY", "LONG", some 100, some 95, some 150, 2⟩)]
            [("ETHUSDT_SHORT", .dec 7)])).2 "BTCUSDT_LONG" = none
    ∧ (handleEmergencyClose
        ⟨"BTCUSDT", "BUY", "LONG", some 100, some 95, some 150, 2⟩
        "BTCUSDT_LONG" none
        (BotState.mk
          [("BTCUSDT_LONG",
            .pending ⟨"BTCUSDT", "BUY", "LONG", some 100, some 95, some 150, 2⟩)]
          [("ETHUSDT_SHORT", .dec 7)])).2.accumulatedLosses
        = [("ETHUSDT_SHORT", .dec 7)] := by
  have h := c8_emergency_close_semantics
    ⟨"BTCUSDT", "BUY", "LONG", some 100, some 95, some 150, 2⟩
    "BTCUSDT_LONG" none
    (BotState.mk
      [("BTCUSDT_LONG",
        .pending ⟨"BTCUSDT", "BUY", "LONG", some 100, some 95, some 150, 2⟩)]
      [("ETHUSDT_SHORT", .dec 7)])
    (by decide)
  exact ⟨h.1, h.2.2.2.1 rfl, h.2.2.2.2.2.1, h.2.2.2.2.2.2⟩

end BB

namespace BB

/-! ### C3 -/

theorem slPlacementOutcome_eq_some (fi : FillInputs) (t : PendingRec)
    (e : ℚ) (x : ℕ) (h : slPlacementOutcome fi t e = some x) :
    fi.slPlaceResult = some x := by
  unfold slPlacementOutcome at h
  cases hsl : t.targetSlPrice with
  | none => rw [hsl] at h; exact absurd h (by simp)
  | some sl =>
    rw [hsl] at h
    dsimp only at h
    by_cases hvalid : (t.signalType = "BUY" ∧ sl < e) ∨
        (t.signalType = "SELL" ∧ sl > e)
    · rw [if_pos hvalid] at h
      cases hm : fi.marketPrice with
      | none => rw [hm] at h; exact absurd h (by simp)
      | some m =>
        rw [hm] at h
        dsimp only at h
        by_cases hsafe : (t.signalType = "BUY" ∧ m > sl) ∨
            (t.signalType = "SELL" ∧ m < sl)
        · rwa [if_pos hsafe] at h
        · rw [if_neg hsafe] at h; exact absurd h (by simp)
    · rw [if_neg hvalid] at h; exact absurd h (by simp)

/-- **C3.** In the fill-processing path, a slot reaches `POSITION_OPEN` only
with a stored SL order response whose order id comes from a successful
stop-market placement; and whenever the SL placement fails — missing SL
target, unavailable market price, rejected placement (no order id), or, for
a BUY, an SL not below the actual entry or a market price already at/past
the SL — the slot is emergency-closed and destroyed. -/
theorem c3_position_open_requires_confirmed_sl
    (fi : FillInputs) (t : PendingRec) (key : String) (st : BotState)
    (hkey : key ≠ "") :
    (∀ q, getActiveTrade (processFilledOrder fi t key st) key = some q →
      ∃ slId, fi.slPlaceResult = some slId ∧
        q = .openPos
          { slOrderResponse := some slId,
            tpOrderResponse := tpPlacementOutcome fi t (actualEntryPriceOf fi t),
            accLossAtEntry := none })
    ∧ (slPlacementOutcome fi t (actualEntryPriceOf fi t) = none →
      getActiveTrade (processFilledOrder fi t key st) key = none)
    ∧ (t.targetSlPrice = none ∨ fi.marketPrice = none ∨ fi.slPlaceResult = none →
      slPlacementOutcome fi t (actualEntryPriceOf fi t) = none)
    ∧ (∀ sl, t.targetSlPrice = some sl → t.signalType = "BUY" →
      (actualEntryPriceOf fi t ≤ sl ∨ (∃ m, fi.marketPrice = some m ∧ m ≤ sl)) →
      slPlacementOutcome fi t (actualEntryPriceOf fi t) = none) := by
  refine ⟨?_, ?_, ?_, ?_⟩
  · intro q hq
    unfold processFilledOrder at hq
    by_cases he : actualEntryPriceOf fi t ≤ 0
    · rw [if_pos he] at hq
      rw [show (handleEmergencyClose t key fi.closeOrderResult st).2
            = clearActiveTrade st key from rfl,
        getActive_clear_self st key hkey] at hq
      exact absurd hq (by simp)
    · rw [if_neg he] at hq
      cases ho : slPlacementOutcome fi t (actualEntryPriceOf fi t) with
      | none =>
        rw [ho] at hq
        rw [show (handleEmergencyClose t key fi.closeOrderResult st).2
              = clearActiveTrade st key from rfl,
          getActive_clear_self st key hkey] at hq
        exact absurd hq (by simp)
      | some slId =>
        rw [ho] at hq
        dsimp only at hq
        rw [getActive_set_self st key _ hkey] at hq
        refine ⟨slId, slPlacementOutcome_eq_some fi t _ slId ho, ?_⟩
        exact (Option.some.injEq _ _ ▸ hq).symm
  · intro h
    unfold processFilledOrder
    by_cases he : actualEntryPriceOf fi t ≤ 0
    · rw [if_pos he]
      exact getActive_clear_self st key hkey
    · rw [if_neg he, h]
      exact getActive_clear_self st key hkey
  · intro h
    unfold slPlacementOutcome
    rcases h with h | h | h
    · rw [h]
    · cases hsl : t.targetSlPrice with
      | none => rfl
      | some sl =>
        dsimp only
        rw [h]
        by_cases hvalid : (t.signalType = "BUY" ∧ sl < actualEntryPriceOf fi t) ∨
            (t.signalType = "SELL" ∧ sl > actualEntryPriceOf fi t)
        · rw [if_pos hvalid]
        · rw [if_neg hvalid]
    · cases hsl : t.targetSlPrice with
      | none => rfl
      | some sl =>
        dsimp only
        by_cases hvalid : (t.signalType = "BUY" ∧ sl < actualEntryPriceOf fi t) ∨
            (t.signalType = "SELL" ∧ sl > actualEntryPriceOf fi t)
        · rw [if_pos hvalid]
          cases hm : fi.marketPrice with
          | none => rfl
          | some m =>
            dsimp only
            by_cases hsafe : (t.signalType = "BUY" ∧ m > sl) ∨
                (t.signalType = "SELL" ∧ m < sl)
            · rw [if_pos hsafe]; exact h
            · rw [if_neg hsafe]
        · rw [if_neg hvalid]
  · intro sl hsl hbuy hfail
    have hnotsell : ¬ t.signalType = "SELL" := by rw [hbuy]; decide
    unfold slPlacementOutcome
    rw [hsl]
    dsimp only
    rcases hfail with hfail | ⟨m, hm, hmle⟩
    · rw [if_neg ?_]
      rintro (⟨_, hlt⟩ | ⟨hsell, _⟩)
      · exact absurd hfail (not_le.mpr hlt)
      · exact hnotsell hsell
    · by_cases hvalid : (t.signalType = "BUY" ∧ sl < actualEntryPriceOf fi t) ∨
          (t.signalType = "SELL" ∧ sl > actualEntryPriceOf fi t)
      · rw [if_pos hvalid, hm]
        dsimp only
        rw [if_neg ?_]
        rintro (⟨_, hgt⟩ | ⟨hsell, _⟩)
        · exact absurd hmle (not_le.mpr hgt)
        · exact hnotsell hsell
      · rw [if_neg hvalid]

/-- Witness for C3: a BUY fill at entry 100 whose SL placement is rejected
(no order id in the response) is emergency-closed: the slot is destroyed. -/
theorem c3_witness :
    getActiveTrade
      (processFilledOrder ⟨some 100, some 101, none, some 11, some 12⟩
        ⟨"BTCUSDT", "BUY", "LONG", some 100, some 95, some 150, 2⟩
        "BTCUSDT_LONG"
        (BotState.mk
          [("BTCUSDT_LONG",
            .pending ⟨"BTCUSDT", "BUY", "LONG", some 100, some 95, some 150, 2⟩)]
          []))
      "BTCUSDT_LONG" = none := by
  have h := c3_position_open_requires_confirmed_sl
    ⟨some 100, some 101, none, some 11, some 12⟩
    ⟨"BTCUSDT", "BUY", "LONG", some 100, some 95, some 150, 2⟩
    "BTCUSDT_LONG"
    (BotState.mk
      [("BTCUSDT_LONG",
        .pending ⟨"BTCUSDT", "BUY", "LONG", some 100, some 95, some 150, 2⟩)]
      [])
    (by decide)
  exact h.2.1 (h.2.2.1 (Or.inr (Or.inr rfl)))

end BB

namespace BB

/-! ### C2 -/

/-- **C2, counterexample.** A tick with the global flag off and an existing
`POSITION_OPEN` slot for BTCUSDT: the claim requires the Position Manager to
still be dispatched for that slot, but `run_bot` (main_bot_loop.py 333-339)
sleeps and `continue`s, so the tick dispatches nothing at all. -/
theorem c2_counterexample :
    getActiveTrade
      (BotState.mk [("BTCUSDT_LONG", .openPos ⟨some 7, none, none⟩)] [])
      "BTCUSDT_LONG" = some (.openPos ⟨some 7, none, none⟩)
    ∧ TickAction.dispatchPM "BTCUSDT_LONG" ∉
        runTick false
          (BotState.mk [("BTCUSDT_LONG", .openPos ⟨some 7, none, none⟩)] [])
          ["BTCUSDT"] := by
  constructor
  · rfl
  · intro h
    simp [runTick] at h

/-- **C2, amended.** While the global on/off flag reports off, the main loop
performs no per-symbol work at all for that tick: neither the Position
Manager nor the Pending-Order Manager is dispatched and no signals are
evaluated (the tick's action list is empty). Slots are dispatched again once
the flag is on: with the flag on, every symbol with a `POSITION_OPEN` LONG
slot gets a `dispatchPM` action. -/
theorem c2_flag_off_skips_all_dispatch (st : BotState)
    (symbols : List String) :
    runTick false st symbols = []
    ∧ (∀ symbol ∈ symbols, ∀ p : OpenPosRec,
        getActiveTrade st (symbol ++ "_LONG") = some (.openPos p) →
        TickAction.dispatchPM (symbol ++ "_LONG") ∈ runTick true st symbols) := by
  constructor
  · rfl
  · intro symbol hmem p hp
    unfold runTick
    rw [show (!true) = false from rfl, if_neg (by simp)]
    refine List.mem_flatMap.mpr ⟨symbol, hmem, ?_⟩
    unfold symbolTickActions
    dsimp only
    rw [hp]
    simp

/-- Witness for C2's amended theorem at a concrete state and symbol list. -/
theorem c2_amended_witness :
    runTick false
      (BotState.mk [("BTCUSDT_LONG", .openPos ⟨some 7, none, none⟩)] [])
      ["BTCUSDT"] = []
    ∧ TickAction.dispatchPM "BTCUSDT_LONG" ∈
        runTick true
          (BotState.mk [("BTCUSDT_LONG", .openPos ⟨some 7, none, none⟩)] [])
          ["BTCUSDT"] := by
  have h := c2_flag_off_skips_all_dispatch
    (BotState.mk [("BTCUSDT_LONG", .openPos ⟨some 7, none, none⟩)] [])
    ["BTCUSDT"]
  exact ⟨h.1, h.2 "BTCUSDT" (by simp) ⟨some 7, none, none⟩ rfl⟩

end BB

namespace BB

/-! ### C6 -/

/-- **C6.** The BUY evaluation returns a signal exactly when all required
data is available (a nonempty trigger dataframe, the three primary-interval
band values, and the SL-reference band) and both the strict precondition
`BBL_orig_P > BBM_orig_S` and the trigger `price_T < BBM_orig_P` hold; the
returned candidate then has entry = `BBL_new_P`, stop-loss reference =
`BBM_orig_S` and timestamp = the trigger candle's open time. In every other
case (in particular whenever any input is missing) it returns no signal;
the embedding is a total function, so no error is ever raised to the
caller. -/
theorem c6_buy_signal_characterization
    (dfTrigger : Option (List TriggerCandle)) (bands : Option MainBands)
    (bbmSlRef : Option ℚ) (sig : BuySignal) :
    analizarSenalesCompra dfTrigger bands bbmSlRef = some sig ↔
      ∃ df c b bblO bbmO bblN slRef,
        dfTrigger = some df ∧ df.getLast? = some c ∧
        bands = some b ∧ b.bblOrig = some bblO ∧ b.bbmOrig = some bbmO ∧
        b.bblNew = some bblN ∧ bbmSlRef = some slRef ∧
        bblO > slRef ∧ c.close < bbmO ∧
        sig = ⟨bblN, slRef, c.openTimeUtc, "COMPRA"⟩ := by
  constructor
  · intro h
    unfold analizarSenalesCompra at h
    cases hdf : dfTrigger with
    | none => rw [hdf] at h; exact absurd h (by simp)
    | some df =>
      rw [hdf] at h
      dsimp only at h
      cases hlast : df.getLast? with
      | none => rw [hlast] at h; exact absurd h (by simp)
      | some c =>
        rw [hlast] at h
        dsimp only at h
        cases hb : bands with
        | none => rw [hb] at h; exact absurd h (by simp)
        | some b =>
          rw [hb] at h
          dsimp only at h
          cases hbbl : b.bblOrig with
          | none => rw [hbbl] at h; exact absurd h (by simp)
          | some bblO =>
            cases hbbm : b.bbmOrig with
            | none => rw [hbbl, hbbm] at h; exact absurd h (by simp)
            | some bbmO =>
              cases hnew : b.bblNew with
              | none => rw [hbbl, hbbm, hnew] at h; exact absurd h (by simp)
              | some bblN =>
                rw [hbbl, hbbm, hnew] at h
                dsimp only at h
                cases hsl : bbmSlRef with
                | none => rw [hsl] at h; exact absurd h (by simp)
                | some slRef =>
                  rw [hsl] at h
                  dsimp only at h
                  by_cases hcond : bblO > slRef ∧ c.close < bbmO
                  · rw [if_pos hcond] at h
                    refine ⟨df, c, b, bblO, bbmO, bblN, slRef, rfl, hlast,
                      rfl, hbbl, hbbm, hnew, rfl, hcond.1, hcond.2, ?_⟩
                    exact (Option.some.injEq _ _ ▸ h).symm
                  · rw [if_neg hcond] at h
                    exact absurd h (by simp)
  · rintro ⟨df, c, b, bblO, bbmO, bblN, slRef, rfl, hlast, rfl, hbbl, hbbm,
      hnew, rfl, hpre, htrig, rfl⟩
    unfold analizarSenalesCompra
    dsimp only
    rw [hlast]
    dsimp only
    rw [hbbl, hbbm, hnew]
    dsimp only
    rw [if_pos ⟨hpre, htrig⟩]

end BB

namespace BB

/-! ### Serialization lemmas (shared, towards C7) -/

theorem digitVal_digitChar (n : ℕ) (h : n < 10) :
    digitVal (digitChar n) = n := by
  interval_cases n <;> rfl

theorem isDigitChar_digitChar (n : ℕ) (h : n < 10) :
    isDigitChar (digitChar n) = true := by
  interval_cases n <;> rfl

theorem isDigitChar_ne (c x : Char) (h : isDigitChar c = true)
    (hx : isDigitChar x = false) : c ≠ x := by
  intro hcx
  rw [hcx, hx] at h
  exact absurd h (by simp)

theorem takeWhile_append_all {α : Type} {p : α → Bool} (l1 l2 : List α)
    (h : ∀ c ∈ l1, p c = true) :
    (l1 ++ l2).takeWhile p = l1 ++ l2.takeWhile p := by
  induction l1 with
  | nil => simp
  | cons c tl ih =>
    simp only [List.cons_append, List.takeWhile_cons,
      h c (List.mem_cons_self c tl), ih fun x hx => h x (List.mem_cons_of_mem c hx)]
    simp

theorem dropWhile_append_all {α : Type} {p : α → Bool} (l1 l2 : List α)
    (h : ∀ c ∈ l1, p c = true) :
    (l1 ++ l2).dropWhile p = l2.dropWhile p := by
  induction l1 with
  | nil => simp
  | cons c tl ih =>
    simp only [List.cons_append, List.dropWhile_cons,
      h c (List.mem_cons_self c tl), ih fun x hx => h x (List.mem_cons_of_mem c hx)]
    simp

theorem takeWhile_cons_false {α : Type} {p : α → Bool} (c : α) (l : List α)
    (h : p c = false) : (c :: l).takeWhile p = [] := by
  simp [List.takeWhile_cons, h]

theorem dropWhile_cons_false {α : Type} {p : α → Bool} (c : α) (l : List α)
    (h : p c = false) : (c :: l).dropWhile p = c :: l := by
  simp [List.dropWhile_cons, h]

theorem map_digitVal_digitChar (l : List ℕ) (h : ∀ x ∈ l, x < 10) :
    (l.map digitChar).map digitVal = l := by
  induction l with
  | nil => rfl
  | cons x tl ih =>
    simp only [List.map_cons, List.cons.injEq]
    exact ⟨digitVal_digitChar x (h x (List.mem_cons_self x tl)),
      ih fun y hy => h y (List.mem_cons_of_mem x hy)⟩

theorem renderNat_ne_nil (k : ℕ) : renderNat k ≠ [] := by
  unfold renderNat
  by_cases hk : k = 0
  · simp [hk]
  · simp only [hk, if_false]
    intro h
    rw [List.map_eq_nil_iff, List.reverse_eq_nil_iff] at h
    exact hk (Nat.digits_eq_nil_iff_eq_zero.mp h)

theorem renderNat_all_digits (k : ℕ) :
    (renderNat k).all isDigitChar = true := by
  unfold renderNat
  by_cases hk : k = 0
  · simp [hk]; rfl
  · simp only [hk, if_false, List.all_eq_true]
    intro c hc
    obtain ⟨x, hx, rfl⟩ := List.mem_map.mp hc
    exact isDigitChar_digitChar x
      (Nat.digits_lt_base (by norm_num) (List.mem_reverse.mp hx))

theorem foldl_digits_map (l : List ℕ) (a : ℕ) (h : ∀ x ∈ l, x < 10) :
    (l.map digitChar).foldl (fun acc c => 10 * acc + digitVal c) a
      = l.foldl (fun acc x => 10 * acc + x) a := by
  induction l generalizing a with
  | nil => rfl
  | cons x tl ih =>
    simp only [List.map_cons, List.foldl_cons,
      digitVal_digitChar x (h x (List.mem_cons_self x tl))]
    exact ih _ fun y hy => h y (List.mem_cons_of_mem x hy)

theorem foldl_base10 (l : List ℕ) (a : ℕ) :
    l.foldl (fun acc x => 10 * acc + x) a
      = a * 10 ^ l.length + Nat.ofDigits 10 l.reverse := by
  induction l generalizing a with
  | nil => simp
  | cons x tl ih =>
    simp only [List.foldl_cons, ih (10 * a + x), List.reverse_cons,
      Nat.ofDigits_append, List.length_reverse, List.length_cons]
    simp [Nat.ofDigits]
    ring

theorem digitsValC_renderNat (k : ℕ) : digitsValC (renderNat k) = k := by
  unfold renderNat digitsValC
  by_cases hk : k = 0
  · simp [hk]; rfl
  · rw [if_neg hk,
      foldl_digits_map _ _
        (fun x hx => Nat.digits_lt_base (by norm_num) (List.mem_reverse.mp hx)),
      foldl_base10, List.reverse_reverse, Nat.ofDigits_digits]
    simp

theorem stripDigits_of_valid (l : List ℕ) (hne : l ≠ [])
    (hlead : l.head? = some 0 → l = [0]) : stripDigits l = l := by
  cases l with
  | nil => exact absurd rfl hne
  | cons x tl =>
    by_cases hx : x = 0
    · have h0 : x :: tl = [0] := hlead (by rw [hx]; rfl)
      rw [h0]
      rfl
    · unfold stripDigits
      rw [List.dropWhile_cons]
      simp only [hx, decide_False, if_false]
      simp

theorem stripDigits_cons_zero (l : List ℕ) :
    stripDigits (0 :: l) = stripDigits l := by
  unfold stripDigits
  rw [List.dropWhile_cons]
  simp

theorem stripDigits_replicate_zero (m : ℕ) (l : List ℕ) :
    stripDigits (List.replicate m 0 ++ l) = stripDigits l := by
  induction m with
  | zero => rfl
  | succ j ih =>
    rw [List.replicate_succ, List.cons_append, stripDigits_cons_zero, ih]

end BB

namespace BB

theorem takeWhile_all {α : Type} {p : α → Bool} (l : List α)
    (h : ∀ c ∈ l, p c = true) : l.takeWhile p = l := by
  have h2 := takeWhile_append_all l [] h
  simpa using h2

theorem dropWhile_all {α : Type} {p : α → Bool} (l : List α)
    (h : ∀ c ∈ l, p c = true) : l.dropWhile p = [] := by
  have h2 := dropWhile_append_all l [] h
  simpa using h2

theorem strToDec_signed (neg : Bool) (a : Char) (tl : List Char)
    (ha : isDigitChar a = true) :
    strToDec (if neg then '-' :: a :: tl else a :: tl)
      = parseUnsigned neg (a :: tl) := by
  cases neg with
  | true => rfl
  | false =>
    simp only [if_false, Bool.false_eq_true]
    unfold strToDec
    dsimp only
    rw [if_neg (isDigitChar_ne a '-' ha (by decide)),
      if_neg (isDigitChar_ne a '+' ha (by decide))]

theorem parseUnsigned_int_split (neg : Bool) (a : Char) (A rest : List Char)
    (ha : isDigitChar a = true) (hA : ∀ c ∈ A, isDigitChar c = true)
    (hrest : rest = [] ∨
      ∃ c cs, rest = c :: cs ∧ isDigitChar c = false ∧ c ≠ '.') :
    parseUnsigned neg ((a :: A) ++ rest) = finishDec neg (a :: A) [] rest := by
  have hAll : ∀ c ∈ a :: A, isDigitChar c = true := by
    intro c hc
    rcases List.mem_cons.mp hc with rfl | hc
    · exact ha
    · exact hA c hc
  unfold parseUnsigned
  dsimp only
  rcases hrest with rfl | ⟨c, cs, rfl, hcd, hcdot⟩
  · rw [List.append_nil, takeWhile_all _ hAll, dropWhile_all _ hAll]
    dsimp only
    rw [if_neg (by simp)]
  · rw [takeWhile_append_all (a :: A) (c :: cs) hAll,
      dropWhile_append_all (a :: A) (c :: cs) hAll,
      takeWhile_cons_false c cs hcd, dropWhile_cons_false c cs hcd,
      List.append_nil]
    dsimp only
    rw [if_neg hcdot, if_neg (by simp)]

theorem parseUnsigned_dot_split (neg : Bool) (a : Char) (A B rest : List Char)
    (ha : isDigitChar a = true) (hA : ∀ c ∈ A, isDigitChar c = true)
    (hB : ∀ c ∈ B, isDigitChar c = true)
    (hrest : rest = [] ∨ ∃ c cs, rest = c :: cs ∧ isDigitChar c = false) :
    parseUnsigned neg ((a :: A) ++ '.' :: (B ++ rest))
      = finishDec neg (a :: A) B rest := by
  have hAll : ∀ c ∈ a :: A, isDigitChar c = true := by
    intro c hc
    rcases List.mem_cons.mp hc with rfl | hc
    · exact ha
    · exact hA c hc
  have hBtake : (B ++ rest).takeWhile isDigitChar = B := by
    rcases hrest with rfl | ⟨c, cs, rfl, hcd⟩
    · rw [List.append_nil]
      exact takeWhile_all _ hB
    · rw [takeWhile_append_all B _ hB, takeWhile_cons_false c cs hcd,
        List.append_nil]
  have hBdrop : (B ++ rest).dropWhile isDigitChar = rest := by
    rcases hrest with rfl | ⟨c, cs, rfl, hcd⟩
    · rw [List.append_nil]
      exact dropWhile_all _ hB
    · rw [dropWhile_append_all B _ hB, dropWhile_cons_false c cs hcd]
  unfold parseUnsigned
  dsimp only
  rw [takeWhile_append_all (a :: A) _ hAll,
    dropWhile_append_all (a :: A) _ hAll,
    takeWhile_cons_false '.' _ (by decide),
    dropWhile_cons_false '.' _ (by decide), List.append_nil]
  dsimp only
  rw [if_pos rfl, hBtake, hBdrop, if_neg (by simp)]

theorem finishDec_expPart (neg : Bool) (A B : List Char) (adjusted : ℤ) :
    finishDec neg A B ('E' :: expChars adjusted)
      = some { neg := neg, digits := stripDigits ((A ++ B).map digitVal),
               exp := adjusted - B.length } := by
  unfold finishDec expChars
  by_cases hadj : adjusted < 0
  · rw [if_pos hadj]
    dsimp only
    rw [if_pos (Or.inl rfl), if_pos rfl,
      if_pos ⟨renderNat_ne_nil _, renderNat_all_digits _⟩]
    have hn : -((digitsValC (renderNat adjusted.natAbs)) : ℤ) = adjusted := by
      rw [digitsValC_renderNat]
      omega
    rw [hn]
  · rw [if_neg hadj]
    dsimp only
    rw [if_pos (Or.inl rfl), if_neg (by decide), if_pos rfl,
      if_pos ⟨renderNat_ne_nil _, renderNat_all_digits _⟩]
    have hn : ((digitsValC (renderNat adjusted.toNat)) : ℤ) = adjusted := by
      rw [digitsValC_renderNat]
      omega
    rw [hn]

end BB

namespace BB

theorem strToDec_decToStr (d : Dec) (hd : ValidDec d) :
    strToDec (decToStr d) = some d := by
  obtain ⟨dneg, ddigits, dexp⟩ := d
  obtain ⟨hne, hlt, hlead⟩ := hd
  dsimp only at hne hlt hlead
  cases ddigits with
  | nil => exact absurd rfl hne
  | cons x dtl =>
  have hx10 : x < 10 := hlt x (List.mem_cons_self x dtl)
  have ha : isDigitChar (digitChar x) = true := isDigitChar_digitChar x hx10
  have hdtl : ∀ c ∈ dtl.map digitChar, isDigitChar c = true := by
    intro c hc
    obtain ⟨y, hy, rfl⟩ := List.mem_map.mp hc
    exact isDigitChar_digitChar y (hlt y (List.mem_cons_of_mem x hy))
  have hmapval : ((x :: dtl).map digitChar).map digitVal = x :: dtl :=
    map_digitVal_digitChar _ hlt
  have hstrip : stripDigits (x :: dtl) = x :: dtl :=
    stripDigits_of_valid _ hne hlead
  unfold decToStr decBody
  dsimp only
  by_cases hfix : dexp ≤ 0 ∧ -6 ≤ dexp + ((x :: dtl).length : ℤ) - 1
  · rw [if_pos hfix]
    by_cases h0 : dexp = 0
    · -- fixed point, no fraction
      rw [if_pos h0, List.map_cons,
        strToDec_signed dneg (digitChar x) (dtl.map digitChar) ha]
      have hsplit := parseUnsigned_int_split dneg (digitChar x)
        (dtl.map digitChar) [] ha hdtl (Or.inl rfl)
      rw [List.append_nil] at hsplit
      rw [hsplit]
      unfold finishDec
      dsimp only
      rw [List.append_nil, ← List.map_cons digitChar x dtl, hmapval, hstrip]
      simp [h0]
    · rw [if_neg h0]
      have hexplt : dexp < 0 := lt_of_le_of_ne hfix.1 h0
      by_cases hpos : 0 < ((x :: dtl).length : ℤ) + dexp
      · -- fixed point, dot inside the digits
        rw [if_pos hpos]
        have hk1 : 1 ≤ (x :: dtl).length - (-dexp).toNat := by
          simp only [List.length_cons] at hpos ⊢
          omega
        obtain ⟨j, hj⟩ : ∃ j, (x :: dtl).length - (-dexp).toNat = j + 1 :=
          ⟨(x :: dtl).length - (-dexp).toNat - 1, by omega⟩
        rw [hj, List.map_cons, List.take_succ_cons, List.drop_succ_cons]
        have hsplit := parseUnsigned_dot_split dneg (digitChar x)
          ((dtl.map digitChar).take j) ((dtl.map digitChar).drop j) [] ha
          (fun c hc => hdtl c (List.mem_of_mem_take hc))
          (fun c hc => hdtl c (List.mem_of_mem_drop hc))
          (Or.inl rfl)
        rw [List.append_nil, List.cons_append] at hsplit
        rw [List.cons_append, strToDec_signed dneg (digitChar x) _ ha, hsplit]
        unfold finishDec
        dsimp only
        rw [List.cons_append, List.take_append_drop,
          ← List.map_cons digitChar x dtl, hmapval, hstrip]
        simp only [Option.some.injEq, Dec.mk.injEq, List.length_drop,
          List.length_map]
        refine ⟨by simp, by simp, ?_⟩
        simp only [List.length_cons] at hpos hj
        omega
      · -- fixed point, 0.00…digits
        rw [if_neg hpos]
        rw [strToDec_signed dneg '0'
          ('.' :: (List.replicate ((-dexp).toNat - (x :: dtl).length) '0' ++
            (x :: dtl).map digitChar)) (by decide)]
        have hB : ∀ c ∈ List.replicate ((-dexp).toNat - (x :: dtl).length) '0' ++
            (x :: dtl).map digitChar, isDigitChar c = true := by
          intro c hc
          rcases List.mem_append.mp hc with hc | hc
          · rw [List.eq_of_mem_replicate hc]
            decide
          · rw [List.map_cons] at hc
            rcases List.mem_cons.mp hc with rfl | hc
            · exact ha
            · exact hdtl c hc
        have hsplit := parseUnsigned_dot_split dneg '0' []
          (List.replicate ((-dexp).toNat - (x :: dtl).length) '0' ++
            (x :: dtl).map digitChar) [] (by decide) (by simp) hB (Or.inl rfl)
        rw [List.append_nil, List.cons_append, List.nil_append] at hsplit
        rw [hsplit]
        unfold finishDec
        dsimp only
        rw [List.cons_append, List.nil_append, List.map_cons, List.map_append,
          List.map_replicate, show digitVal '0' = 0 from rfl, hmapval,
          stripDigits_cons_zero, stripDigits_replicate_zero, hstrip]
        simp only [Option.some.injEq, Dec.mk.injEq, List.length_append,
          List.length_replicate, List.length_map]
        refine ⟨by simp, by simp, ?_⟩
        simp only [List.length_cons, not_lt] at hpos ⊢
        omega
  · -- scientific notation
    rw [if_neg hfix]
    cases dtl with
    | nil =>
      rw [List.map_cons, List.map_nil]
      dsimp only
      rw [if_pos rfl, List.cons_append, List.nil_append,
        strToDec_signed dneg (digitChar x) _ ha]
      have hsplit := parseUnsigned_int_split dneg (digitChar x) []
        ('E' :: expChars (dexp + (([x] : List ℕ).length : ℤ) - 1)) ha
        (by simp)
        (Or.inr ⟨'E', _, rfl, by decide, by decide⟩)
      rw [List.cons_append, List.nil_append] at hsplit
      rw [hsplit, finishDec_expPart]
      have hmv : List.map digitVal [digitChar x] = [x] := by
        simpa using hmapval
      rw [List.append_nil, hmv, hstrip]
      simp only [Option.some.injEq, Dec.mk.injEq]
      refine ⟨by simp, by simp, ?_⟩
      simp only [List.length_cons, List.length_nil]
      omega
    | cons y ytl =>
      rw [List.map_cons]
      dsimp only
      rw [if_neg (show ¬ List.map digitChar (y :: ytl) = [] from by simp),
        List.cons_append, List.cons_append,
        strToDec_signed dneg (digitChar x) _ ha]
      have hsplit := parseUnsigned_dot_split dneg (digitChar x) []
        ((y :: ytl).map digitChar)
        ('E' :: expChars (dexp + ((x :: y :: ytl).length : ℤ) - 1)) ha
        (by simp) (fun c hc => hdtl c hc)
        (Or.inr ⟨'E', _, rfl, by decide⟩)
      rw [List.cons_append, List.nil_append] at hsplit
      rw [hsplit, finishDec_expPart]
      rw [List.cons_append, List.nil_append,
        ← List.map_cons digitChar x (y :: ytl), hmapval, hstrip]
      simp only [Option.some.injEq, Dec.mk.injEq, List.length_map]
      refine ⟨by simp, by simp, ?_⟩
      simp only [List.length_cons]
      omega

end BB

namespace BB

mutual
theorem convertVal_jvalToMVal (j : JVal) : convertVal (jvalToMVal j) = j := by
  cases j with
  | str s => rfl
  | arr l => rw [jvalToMVal, convertVal, convertList_jlistToMList l]
  | obj o => rw [jvalToMVal, convertVal, convertObj_jobjToMObj o]
theorem convertList_jlistToMList (l : JList) :
    convertList (jlistToMList l) = l := by
  cases l with
  | nil => rfl
  | cons hd tl =>
    rw [jlistToMList, convertList, convertVal_jvalToMVal hd,
      convertList_jlistToMList tl]
theorem convertObj_jobjToMObj (o : JObj) : convertObj (jobjToMObj o) = o := by
  cases o with
  | nil => rfl
  | cons k hd tl =>
    rw [jobjToMObj, convertObj, convertVal_jvalToMVal hd,
      convertObj_jobjToMObj tl]
end

theorem parsedLosses_saved (l : List (String × Dec))
    (h : ∀ kv ∈ l, ValidDec kv.2) :
    parsedLosses (l.map fun kv => (kv.1, JVal.str (decToStr kv.2)))
      = some l := by
  induction l with
  | nil => rfl
  | cons kv tl ih =>
    obtain ⟨k, dc⟩ := kv
    rw [List.map_cons]
    unfold parsedLosses
    rw [strToDec_decToStr dc (h (k, dc) (List.mem_cons_self _ _)),
      ih fun kv hkv => h kv (List.mem_cons_of_mem _ hkv)]

end BB

namespace BB

/-! ### C7 -/

/-- **C7.** Saving an in-memory state, loading the file back, and saving
again produces the identical file (`json.dump` is deterministic and
key-order preserving, so equality of the serialized trees is byte-for-byte
equality modulo key ordering): `Decimal` values survive the `str`/parse
round trip exactly, timestamps are stored as their `isoformat` strings and
reloaded verbatim, and `active_trades` values re-serialize to the same
JSON. The hypothesis is the invariant `Decimal.as_tuple()` guarantees for
every stored coefficient. -/
theorem c7_save_load_save_round_trip (st : PState)
    (hvalid : ∀ kv ∈ st.accumulatedLosses, ValidDec kv.2) :
    saveState (loadState (saveState st)) = saveState st := by
  unfold saveState loadState
  dsimp only
  rw [parsedLosses_saved st.accumulatedLosses hvalid]
  dsimp only
  congr 1
  rw [List.map_map, List.map_map]
  apply List.map_congr_left
  intro kv _
  dsimp only [Function.comp]
  rw [convertVal_jvalToMVal]

/-- Witness for C7: a concrete state with one active trade (a dict holding
a decimal entry price and a UTC timestamp) and one accumulated loss of
0.975. -/
theorem c7_witness :
    saveState (loadState (saveState (PState.mk
      [("BTCUSDT_LONG", MVal.obj (MObj.cons "target_entry_price"
          (MVal.dec ⟨false, [1, 0, 0, 8], -1⟩)
          (MObj.cons "timestamp_signal_iso"
            (MVal.ts ⟨2026, 10, 12, 0, 0, 0, 0⟩) MObj.nil)))]
      [("BTCUSDT_LONG", ⟨false, [9, 7, 5], -3⟩)])))
    = saveState (PState.mk
      [("BTCUSDT_LONG", MVal.obj (MObj.cons "target_entry_price"
          (MVal.dec ⟨false, [1, 0, 0, 8], -1⟩)
          (MObj.cons "timestamp_signal_iso"
            (MVal.ts ⟨2026, 10, 12, 0, 0, 0, 0⟩) MObj.nil)))]
      [("BTCUSDT_LONG", ⟨false, [9, 7, 5], -3⟩)]) :=
  c7_save_load_save_round_trip _ (by
    intro kv hkv
    rcases List.mem_singleton.mp hkv with rfl
    exact ⟨by decide, by decide, by decide⟩)

end BB
